import Mathlib

/-!
Verification of the tinyvdom library (`src/main.ts`, `src/types.ts`) against its
natural-language specification.

The embedding translates the TypeScript source into Lean:
* JavaScript values that can appear as attribute values are modelled by `JSVal`
  (non-negative integer numbers, strings, functions identified by a token,
  `undefined` and `null`); floating-point artefacts such as `NaN` are outside
  the modelled fragment.
* JavaScript loose equality `==` / `!=` is modelled by `jsEq` on this fragment,
  including the number/string coercion (`Number("1") == 1`, `Number("") == 0`).
* DOM mutation calls are modelled as explicit operation lists (`OpKind`, `Op`);
  a function that can throw returns `Option`, `none` meaning an exception.
* The reactivity engine (`activeEffect`, `typeDependencyMap`, `effect`, `track`,
  `trigger`, `reactive`) is modelled as a state machine (`RState`) driven by a
  fuel-bounded interpreter `exec`; effect callbacks are modelled by the small
  program syntax `Prog` (reactive reads, reactive writes, nested `effect`
  registrations, normal completion, and a throw).
-/

namespace TinyVDom

/-- JavaScript values appearing as prop values in this library: numbers
(restricted to non-negative integers; `NaN` and other float artefacts are
outside the modelled fragment), strings, functions (compared by identity,
modelled by a numeric token), `undefined` and `null`. -/
inductive JSVal : Type where
  | num (n : Nat)
  | str (s : String)
  | fn (id : Nat)
  | undefV
  | nullv
deriving DecidableEq, Repr

/-- JavaScript `Number(s)` restricted to strings of decimal digits: a string of
digits (including the empty string, since `Number("") = 0`) converts to its
value; any other string converts to `NaN`, modelled by `none`. -/
def toNumber (s : String) : Option Nat :=
  if s.data.all Char.isDigit then
    some (s.data.foldl (fun n c => n * 10 + (c.toNat - 48)) 0)
  else none

/-- JavaScript loose equality `==` on the modelled value fragment.
A number and a string are equal when the string coerces to that number;
`undefined == null`; functions compare by identity.  A function never compares
equal to a number (its coercion is `NaN`), and its string form (function source
text) is modelled as unequal to every modelled string. -/
def jsEq : JSVal → JSVal → Bool
  | .num a, .num b => a == b
  | .str a, .str b => a == b
  | .fn a, .fn b => a == b
  | .num a, .str s => toNumber s == some a
  | .str s, .num a => toNumber s == some a
  | .undefV, .undefV => true
  | .nullv, .nullv => true
  | .undefV, .nullv => true
  | .nullv, .undefV => true
  | _, _ => false

/-- `typeof v === 'function'`. -/
def isFn : JSVal → Bool
  | .fn _ => true
  | _ => false

/-- JavaScript truthiness on the modelled fragment: `0`, `""`, `undefined`
and `null` are falsy; everything else is truthy. -/
def jsTruthy : JSVal → Bool
  | .num n => n != 0
  | .str s => s != ""
  | .fn _ => true
  | .undefV => false
  | .nullv => false

/-- A JavaScript object used as a props mapping: an insertion-ordered
association list from keys to values (`for ... in` iterates in this order;
real JS objects never hold duplicate keys). -/
abbrev Props := List (String × JSVal)

/-- Association-list lookup: the value stored under the first matching key
(JS property access on our insertion-ordered object model). -/
def getA {α β : Type} [DecidableEq α] : List (α × β) → α → Option β
  | [], _ => none
  | (a, b) :: rest, x => if a = x then some b else getA rest x

/-- Association-list store: replace the first binding of the key in place, or
append a fresh binding (JS `Map.set` keeps the insertion position on update). -/
def setA {α β : Type} [DecidableEq α] : List (α × β) → α → β → List (α × β)
  | [], a, b => [(a, b)]
  | (x, y) :: rest, a, b =>
      if x = a then (a, b) :: rest else (x, y) :: setA rest a b

/-- `String.prototype.startsWith` over the characters of the two strings
(spelled out on the character lists so that concrete instances evaluate). -/
def listStartsWith : List Char → List Char → Bool
  | _, [] => true
  | [], _ :: _ => false
  | c :: cs, p :: ps => c == p && listStartsWith cs ps

/-- `s.startsWith(pre)`. -/
def jsStartsWith (s pre : String) : Bool :=
  listStartsWith s.data pre.data

/-- `s.toLowerCase()` on the modelled (ASCII) strings. -/
def jsToLower (s : String) : String :=
  ⟨s.data.map Char.toLower⟩

/-- JS member access `obj[key]`: a missing key reads as `undefined`. -/
def getProp (ps : Props) (k : String) : JSVal :=
  (getA ps k).getD .undefV

/-- `key.slice(2).toLowerCase()`: the event name derived from an `on`-prefixed
prop key. -/
def eventNameOf (k : String) : String :=
  jsToLower (k.drop 2)

/-- The host subtree produced by `render`: element nodes carry the attributes
and listeners installed on them and their rendered children, in order. -/
inductive RTree : Type where
  | elem (tag : String) (attrs : List (String × JSVal))
      (listeners : List (String × JSVal)) (children : List RTree)
  | textNode (s : String)

/-- One DOM mutation call on a host element (the element itself is implicit;
`Op` below adds the target path for `patch`). -/
inductive OpKind : Type where
  | appendChild (node : RTree)
  | removeChild (i : Nat)
  | replaceChild (i : Nat) (node : RTree)
  | setAttribute (k : String) (v : JSVal)
  | removeAttribute (k : String)
  | addEventListener (ev : String) (f : JSVal)
  | removeEventListener (ev : String) (f : JSVal)

/-- The DOM calls made for one differing key in `updateProps`'s first loop
(source lines 98–107): an `on`-prefixed key with a callable new value removes
the old listener when the old value is truthy and then adds the new listener;
every other key is set as an attribute. -/
def setOpsFor (k : String) (nv ov : JSVal) : List OpKind :=
  if jsStartsWith k "on" && isFn nv then
    (if jsTruthy ov then [.removeEventListener (eventNameOf k) ov] else [])
      ++ [.addEventListener (eventNameOf k) nv]
  else
    [.setAttribute k nv]

/-- `updateProps(el, newProps, oldProps)` (source lines 95–120), as the list of
DOM calls it performs on `el`, in order: first the `for key in newProps` loop
(keys whose looked-up values differ under loose `!=` produce `setOpsFor`),
then the `for key in oldProps` loop (keys not `in newProps` remove the listener
when `on`-prefixed with a function value, otherwise remove the attribute). -/
def updatePropsOps (newProps oldProps : Props) : List OpKind :=
  ((newProps.map Prod.fst).flatMap fun k =>
    let nv := getProp newProps k
    let ov := getProp oldProps k
    if jsEq nv ov then [] else setOpsFor k nv ov)
  ++ ((oldProps.map Prod.fst).flatMap fun k =>
    if (getA newProps k).isSome then []
    else
      let ov := getProp oldProps k
      if jsStartsWith k "on" && isFn ov then
        [.removeEventListener (eventNameOf k) ov]
      else
        [.removeAttribute k])

/-- Modelled from the spec: the minimal attribute diff described in §4.5 of the
specification, written from its words for comparison with `updatePropsOps`:
each key of the new mapping whose value differs from the old mapping's value is
set (for an event-prefixed key with a callable new value, any existing old
listener for that event name — one was present exactly when the old mapping has
the key — is removed first, then the new listener added); each key present only
in the old mapping has its listener (event-prefixed) or attribute removed;
equal-value keys cause no host call. -/
def specMinimalOps (newProps oldProps : Props) : List OpKind :=
  ((newProps.map Prod.fst).flatMap fun k =>
    let nv := getProp newProps k
    let ov := getProp oldProps k
    if jsEq nv ov then []
    else if jsStartsWith k "on" && isFn nv then
      (if (getA oldProps k).isSome then [.removeEventListener (eventNameOf k) ov] else [])
        ++ [.addEventListener (eventNameOf k) nv]
    else [.setAttribute k nv])
  ++ ((oldProps.map Prod.fst).flatMap fun k =>
    if (getA newProps k).isSome then []
    else if jsStartsWith k "on" then
      [.removeEventListener (eventNameOf k) (getProp oldProps k)]
    else [.removeAttribute k])

/-- Well-formed props per the spec's data model (§3): keys beginning with the
reserved `on` prefix denote event bindings whose value must be a callable. -/
def WFProps (ps : Props) : Prop :=
  ∀ p ∈ ps, jsStartsWith p.1 "on" = true → isFn p.2 = true

mutual
/-- `VNode` (`types.ts`): `type` (element tag), optional `props`, and the
ordered `children` array of virtual nodes and text leaves. -/
inductive VNode : Type where
  | mk (type_ : String) (props : Option Props) (children : List Child) : VNode

/-- One entry of a `VNode`'s `children` array: `VNode | string`. -/
inductive Child : Type where
  | node (v : VNode) : Child
  | text (s : String) : Child
end

/-- A runtime argument in `h`'s variadic `children` list: a virtual node or a
string, a `null` or `undefined` entry, or an arbitrarily nested array of
such arguments. -/
inductive HIn : Type where
  | child (c : Child) : HIn
  | nullv : HIn
  | undefV : HIn
  | arr (xs : List HIn) : HIn

/-- `x != null` is false exactly on `null` and `undefined` (loose equality). -/
def HIn.isNullish : HIn → Bool
  | .nullv => true
  | .undefV => true
  | _ => false

mutual
/-- `Array.prototype.flat(Infinity)` on one argument: arrays are expanded to
unbounded depth, every other entry (including `null`/`undefined`) is kept. -/
def flatOne : HIn → List HIn
  | .arr xs => flatList xs
  | x => [x]

/-- `children.flat(Infinity)` over the whole argument list. -/
def flatList : List HIn → List HIn
  | [] => []
  | x :: xs => flatOne x ++ flatList xs
end

/-- The typing coercion from a fully flattened, non-nullish entry back to a
`VNode | string` child; `null`/`undefined`/array entries yield `none` (after
`flat(Infinity)` and the nullish filter none remain). -/
def HIn.leaf : HIn → Option Child
  | .child c => some c
  | _ => none

/-- `h(type, props, ...children)` (source lines 5–16): flatten the variadic
children to unbounded depth, drop `null`/`undefined` entries (`child != null`),
and return the virtual node. -/
def h (type_ : String) (props : Option Props) (children : List HIn) : VNode :=
  let flatChildren := (flatList children).filter (fun c => !c.isNullish)
  .mk type_ props (flatChildren.filterMap HIn.leaf)

mutual
/-- Modelled from the spec: the flatten law of §4.1/§8.1, written from the
spec's words — the fully flattened sequence of one argument with all `null` and
`undefined` entries removed, order preserved. -/
def specFlattenOne : HIn → List Child
  | .child c => [c]
  | .nullv => []
  | .undefV => []
  | .arr xs => specFlattenList xs

/-- Modelled from the spec: the flatten law over the whole argument list. -/
def specFlattenList : List HIn → List Child
  | [] => []
  | x :: xs => specFlattenOne x ++ specFlattenList xs
end

/-- The attributes `render` installs on a fresh element (source lines 21–29):
every prop entry that is not an `on`-prefixed key with a callable value is set
as a host attribute, in iteration order. -/
def propAttrs (ps : Props) : List (String × JSVal) :=
  ps.filter (fun p => !(jsStartsWith p.1 "on" && isFn p.2))

/-- The listeners `render` installs on a fresh element: every `on`-prefixed key
with a callable value becomes a listener under the derived event name. -/
def propListeners (ps : Props) : List (String × JSVal) :=
  ps.filterMap (fun p =>
    if jsStartsWith p.1 "on" && isFn p.2 then some (eventNameOf p.1, p.2) else none)

mutual
/-- `render(vnode)` (source lines 18–44) as the host subtree it creates: one
element of the node's tag carrying the installed attributes and listeners,
with each child rendered in order (string children become text nodes). -/
def renderNode : VNode → RTree
  | .mk t p cs => .elem t (propAttrs (p.getD [])) (propListeners (p.getD [])) (renderKids cs)

/-- `render`'s child loop, in order. -/
def renderKids : List Child → List RTree
  | [] => []
  | c :: cs => renderChild c :: renderKids cs

/-- One child of `render`: a string becomes a text node, a virtual node is
rendered recursively. -/
def renderChild : Child → RTree
  | .node v => renderNode v
  | .text s => .textNode s
end

/-- A DOM mutation performed by `patch`, tagged with the path of child indices
from the top-level `parent` argument down to the node whose method is invoked
(`[]` is `parent` itself). -/
structure Op : Type where
  path : List Nat
  kind : OpKind

/-- Prefix an operation's target path with a child index (used when `patch`
recursion descends from `parent` into `parent.childNodes[index]`). -/
def atPath (idx : Nat) (op : Op) : Op :=
  ⟨idx :: op.path, op.kind⟩

/-- An operation on the current parent itself. -/
def here (k : OpKind) : Op :=
  ⟨[], k⟩

/-- `typeof x === 'string'` on an optional child (an out-of-range index reads
as `undefined`, whose typeof is not `'string'`). -/
def isTextO : Option Child → Bool
  | some (.text _) => true
  | _ => false

/-- JS loose equality `newChildren[i] == oldChildren[i]` for the operand shapes
the text branch of `patch` can reach: two strings compare structurally; a
string compares to a virtual-node object through the object's primitive form,
which for these plain objects is `"[object Object]"`; a string never equals
`undefined`.  The remaining shapes are unreachable under the branch's
`typeof ... === 'string'` guard. -/
def childEq : Option Child → Option Child → Bool
  | some (.text a), some (.text b) => a == b
  | some (.text a), some (.node _) => a == "[object Object]"
  | some (.node _), some (.text b) => b == "[object Object]"
  | none, none => true
  | _, _ => false

mutual
/-- Structural size of a virtual node (termination measure for `patchOps`). -/
def vsize : VNode → Nat
  | .mk _ _ cs => 1 + csizeL cs

/-- Structural size of a children list. -/
def csizeL : List Child → Nat
  | [] => 0
  | c :: cs => csize c + csizeL cs + 1

/-- Structural size of one child. -/
def csize : Child → Nat
  | .node v => 1 + vsize v
  | .text _ => 1
end

/-- Size of an optional virtual node (an absent argument counts 0). -/
def ovsize : Option VNode → Nat
  | none => 0
  | some v => vsize v

/-- Size of an optional child. -/
def ocsize : Option Child → Nat
  | none => 0
  | some c => csize c

mutual
/-- `patch(parent, newNode, oldNode, index)` (source lines 54–93) as the list
of DOM calls it performs, with target paths relative to `parent`; `none`
operands model an absent (`undefined`) argument and a `none` result models a
thrown exception (`render` applied to `undefined`).  In order: absent old node
appends a freshly rendered new node; absent new node removes the child at
`index`; a tag change replaces the child at `index` with a fresh render;
otherwise `updateProps` runs on `parent.childNodes[index]` and the children
are walked positionally up to the longer length. -/
def patchOps : Option VNode → Option VNode → Nat → Option (List Op)
  | newN, none, _ =>
    match newN with
    | some v => some [here (.appendChild (renderNode v))]
    | none => none
  | none, some _, index => some [here (.removeChild index)]
  | some (.mk nt np ncs), some (.mk ot op_ ocs), index =>
    if nt ≠ ot then
      some [here (.replaceChild index (renderNode (.mk nt np ncs)))]
    else
      match patchKids ncs ocs 0 with
      | none => none
      | some kidOps =>
        some (((updatePropsOps (np.getD []) (op_.getD [])).map (fun k => Op.mk [index] k))
          ++ kidOps.map (atPath index))
termination_by newN oldN _ => ovsize newN + ovsize oldN
decreasing_by
  all_goals simp [ovsize, ocsize, vsize, csizeL, csize]
  all_goals omega

/-- The positional children walk of `patch` (source lines 78–91): index `i`
runs to the longer of the two children lists, an out-of-range index reading as
`undefined`; operations are relative to the element being patched. -/
def patchKids : List Child → List Child → Nat → Option (List Op)
  | [], [], _ => some []
  | n :: ns, o :: os, i => do
    pure ((← childStep (some n) (some o) i) ++ (← patchKids ns os (i + 1)))
  | n :: ns, [], i => do
    pure ((← childStep (some n) none i) ++ (← patchKids ns [] (i + 1)))
  | [], o :: os, i => do
    pure ((← childStep none (some o) i) ++ (← patchKids [] os (i + 1)))
termination_by ncs ocs _ => csizeL ncs + csizeL ocs
decreasing_by
  all_goals simp [ovsize, ocsize, vsize, csizeL, csize]
  all_goals omega

/-- One iteration of the children walk, by cases on the two operands.  When
either side is a string (`typeof ... === 'string'`), unequal values under
loose `!=` (`childEq`) replace the child at `i` with a text node for a string
new value or a fresh render for a node new value, and an absent new value
throws (`render(undefined)` reads `.type` of `undefined`).  When neither side
is a string, `patch` recurses on the two operands (an absent operand is passed
through as `undefined`). -/
def childStep : Option Child → Option Child → Nat → Option (List Op)
  | some (.text a), some (.text b), i =>
    if childEq (some (.text a)) (some (.text b)) then some []
    else some [here (.replaceChild i (.textNode a))]
  | some (.text a), some (.node w), i =>
    if childEq (some (.text a)) (some (.node w)) then some []
    else some [here (.replaceChild i (.textNode a))]
  | some (.text a), none, i =>
    if childEq (some (.text a)) none then some []
    else some [here (.replaceChild i (.textNode a))]
  | some (.node v), some (.text b), i =>
    if childEq (some (.node v)) (some (.text b)) then some []
    else some [here (.replaceChild i (renderNode v))]
  | none, some (.text b), _ =>
    if childEq none (some (.text b)) then some [] else none
  | some (.node v), some (.node w), i => patchOps (some v) (some w) i
  | some (.node v), none, i => patchOps (some v) none i
  | none, some (.node w), i => patchOps none (some w) i
  | none, none, _ => some []
termination_by newC oldC _ => ocsize newC + ocsize oldC
decreasing_by
  all_goals simp [ovsize, ocsize, vsize, csizeL, csize]
  all_goals omega
end

/-- The ambient document for `mount`: the table `document.getElementById`
consults, mapping element identifiers to host elements (by numeric handle). -/
abbrev Doc := List (String × Nat)

/-- `mount(vnode, container)` (source lines 46–52): look the container up by
identifier; if absent, throw `cannot find ID: <container>`; otherwise render
the vnode and append the result as the container's child.  The `.ok` value
records the container handle and the appended rendered subtree. -/
def mount (doc : Doc) (vnode : VNode) (container : String) : Except String (Nat × RTree) :=
  match getA doc container with
  | none => .error ("cannot find ID: " ++ container)
  | some root => .ok (root, renderNode vnode)

/-- The body of an effect callback, as the sequence of engine-visible actions
it performs: reads and writes of reactive properties (object handle × key),
registration of a nested effect, normal completion, or a throw.  The same
syntax describes top-level application code (run with no active effect). -/
inductive Prog : Type where
  | done : Prog
  | fail : Prog
  | read (o : Nat) (k : String) (rest : Prog) : Prog
  | write (o : Nat) (k : String) (v : JSVal) (rest : Prog) : Prog
  | nest (body : Prog) (rest : Prog) : Prog

/-- The reactivity engine's process-wide state (source lines 122–123), plus
the plain-object store the reactive proxies wrap and bookkeeping that makes
runs observable: `registry` maps each created `effectFn` closure (by numeric
identity) to its body, and `invocations` logs every `effectFn` invocation. -/
structure RState : Type where
  activeEffect : Option Nat
  depMap : List (Nat × List (String × List Nat))
  store : List (Nat × List (String × JSVal))
  registry : List (Nat × Prog)
  nextEff : Nat
  invocations : List Nat

/-- `track(target, key)` (source lines 134–154): a no-op without an active
effect; otherwise the per-target map and per-key set are created lazily and the
active effect is added to the set (`Set.add`: insertion order, no duplicate). -/
def trackFn (o : Nat) (k : String) (s : RState) : RState :=
  match s.activeEffect with
  | none => s
  | some e =>
    let m := (getA s.depMap o).getD []
    let set := (getA m k).getD []
    let set1 := if e ∈ set then set else set ++ [e]
    { s with depMap := setA s.depMap o (setA m k set1) }

/-- `Reflect.set` on the wrapped plain object: store the value under
(object, key); on a plain data object this write always succeeds (the `true`
result the proxy's `set` trap checks). -/
def storeSet (o : Nat) (k : String) (v : JSVal) (s : RState) : RState :=
  { s with store := setA s.store o (setA ((getA s.store o).getD []) k v) }

/-- The subscriber set recorded for (object, key): what `trigger` iterates
(source lines 156–167); missing entries read as the empty set. -/
def depLookup (o : Nat) (k : String) (s : RState) : List Nat :=
  (getA ((getA s.depMap o).getD []) k).getD []

/-- A pending unit of engine work: invoking one `effectFn` closure, executing
a callback body, or `trigger`'s loop over a subscriber list. -/
inductive Task : Type where
  | eff (id : Nat) : Task
  | prog (p : Prog) : Task
  | effList (l : List Nat) : Task

/-- The engine interpreter, bounded by fuel (each step spends one unit; with
enough fuel this is exactly the JS call tree).  The Bool result is `true` for
normal completion and `false` when an exception propagates out (or fuel runs
out).  `Task.eff id` is one `effectFn` invocation (source lines 126–130): set
`activeEffect` to the closure, run the body, then clear `activeEffect` — the
clear is skipped when the body throws, exactly as in the source, which has no
`try`/`finally`.  A reactive read tracks then loads; a reactive write performs
`Reflect.set` and, the write having succeeded, triggers the subscriber set
recorded for the key, running each subscriber in order and letting an
exception abort the iteration.  `Prog.nest` is a nested `effect(fn)` call:
register the closure and invoke it once immediately. -/
def exec : Nat → Task → RState → Bool × RState
  | 0, _, s => (false, s)
  | fuel + 1, t, s =>
    match t with
    | .eff id =>
      let s1 := { s with activeEffect := some id, invocations := s.invocations ++ [id] }
      match getA s.registry id with
      | none => (true, { s1 with activeEffect := none })
      | some body =>
        let r := exec fuel (.prog body) s1
        if r.1 then (true, { r.2 with activeEffect := none }) else (false, r.2)
    | .prog p =>
      match p with
      | .done => (true, s)
      | .fail => (false, s)
      | .read o k rest => exec fuel (.prog rest) (trackFn o k s)
      | .write o k v rest =>
        let s1 := storeSet o k v s
        let r := exec fuel (.effList (depLookup o k s1)) s1
        if r.1 then exec fuel (.prog rest) r.2 else (false, r.2)
      | .nest body rest =>
        let id := s.nextEff
        let s1 := { s with registry := s.registry ++ [(id, body)], nextEff := id + 1 }
        let r := exec fuel (.eff id) s1
        if r.1 then exec fuel (.prog rest) r.2 else (false, r.2)
    | .effList l =>
      match l with
      | [] => (true, s)
      | e :: rest =>
        let r := exec fuel (.eff e) s
        if r.1 then exec fuel (.effList rest) r.2 else (false, r.2)

/-- The engine's initial state: no active effect, empty dependency map, a given
plain-object store, no registered effects. -/
def initState (store : List (Nat × List (String × JSVal))) : RState :=
  ⟨none, [], store, [], 0, []⟩

/-- Projection: a virtual node's `type` field. -/
def VNode.typeOf : VNode → String
  | .mk t _ _ => t

/-- Projection: a virtual node's `props` field. -/
def VNode.propsOf : VNode → Option Props
  | .mk _ p _ => p

/-- Projection: a virtual node's `children` field. -/
def VNode.childrenOf : VNode → List Child
  | .mk _ _ cs => cs

mutual
/-- Structural size of one `h` argument (induction measure). -/
def hsize : HIn → Nat
  | .child _ => 1
  | .nullv => 1
  | .undefV => 1
  | .arr xs => 1 + hsizeL xs

/-- Structural size of an `h` argument list. -/
def hsizeL : List HIn → Nat
  | [] => 0
  | x :: xs => hsize x + hsizeL xs
end

/-- The dependency-map invariant: every (object, key) subscriber set holds at
most one entry per callback identity (the `Set` semantics of the source). -/
def depInv (s : RState) : Prop := ∀ o k, (depLookup o k s).Nodup

/-- Loose equality is reflexive on the modelled value fragment (no `NaN`). -/
theorem jsEq_refl (v : JSVal) : jsEq v v = true := by
  cases v <;> simp [jsEq]

/-- A function value is truthy. -/
theorem isFn_truthy {v : JSVal} (h : isFn v = true) : jsTruthy v = true := by
  cases v <;> simp_all [isFn, jsTruthy]

/-- A flat map over pointwise-empty results is empty. -/
theorem flatMap_nil {α β : Type} (l : List α) (f : α → List β)
    (h : ∀ x ∈ l, f x = []) : l.flatMap f = [] := by
  induction l with
  | nil => rfl
  | cons a l ih =>
    rw [List.flatMap_cons, h a (List.mem_cons_self a l), List.nil_append]
    exact ih (fun x hx => h x (List.mem_cons_of_mem a hx))

/-- A key occurring in the key list of an association list is found by `getA`. -/
theorem getA_isSome_of_mem_keys {α β : Type} [DecidableEq α] :
    ∀ (ps : List (α × β)) (k : α), k ∈ ps.map Prod.fst → (getA ps k).isSome = true := by
  intro ps k h
  induction ps with
  | nil => simp at h
  | cons p ps ih =>
    obtain ⟨a, b⟩ := p
    rw [List.map_cons, List.mem_cons] at h
    by_cases hk : a = k
    · simp [getA, hk]
    · have : k ∈ ps.map Prod.fst := by
        cases h with
        | inl he => exact absurd he.symm hk
        | inr hm => exact hm
      simp [getA, hk, ih this]

/-- A successful `getA` lookup returns a binding of the list. -/
theorem getA_mem {α β : Type} [DecidableEq α] :
    ∀ (ps : List (α × β)) (k : α) (w : β), getA ps k = some w → (k, w) ∈ ps := by
  intro ps k w h
  induction ps with
  | nil => simp [getA] at h
  | cons p ps ih =>
    obtain ⟨a, b⟩ := p
    by_cases hk : a = k
    · simp [getA, hk] at h
      simp [hk, h]
    · simp [getA, hk] at h
      exact List.mem_cons_of_mem _ (ih h)

/-- `getA` after `setA`: the stored key reads the new value, others unchanged. -/
theorem getA_setA {α β : Type} [DecidableEq α] :
    ∀ (l : List (α × β)) (a : α) (b : β) (x : α),
    getA (setA l a b) x = if x = a then some b else getA l x := by
  intro l a b x
  induction l with
  | nil =>
    by_cases hx : x = a
    · subst hx; simp [setA, getA]
    · have hx2 : ¬a = x := fun hh => hx hh.symm
      simp [setA, getA, hx, hx2]
  | cons p l ih =>
    obtain ⟨c, d⟩ := p
    by_cases hc : c = a
    · subst hc
      by_cases hx : x = c
      · subst hx; simp [setA, getA]
      · have hx2 : ¬c = x := fun hh => hx hh.symm
        simp [setA, getA, hx, hx2]
    · by_cases hx : c = x
      · subst hx
        simp [setA, getA, hc, fun hh => hc hh]
      · simp [setA, getA, hc, hx, ih]

/-- Diffing a props object against itself performs no host call: the first
loop sees loosely-equal values at every key, the second sees every key still
present. -/
theorem updateProps_self (ps : Props) : updatePropsOps ps ps = [] := by
  unfold updatePropsOps
  rw [flatMap_nil _ _ (fun k _ => by simp [jsEq_refl]),
      flatMap_nil _ _ (fun k hk => by simp [getA_isSome_of_mem_keys ps k hk])]
  rfl

/-- Patching any virtual node against itself emits no operation, jointly with
the corresponding statement for the positional children walk (strong induction
on the structural size). -/
theorem patch_self_aux : ∀ n : Nat,
    (∀ v : VNode, vsize v ≤ n → ∀ idx, patchOps (some v) (some v) idx = some []) ∧
    (∀ cs : List Child, csizeL cs ≤ n → ∀ i, patchKids cs cs i = some []) := by
  intro n
  induction n with
  | zero =>
    constructor
    · intro v hv
      cases v with
      | mk t p cs => simp [vsize] at hv
    · intro cs hcs i
      cases cs with
      | nil => simp [patchKids]
      | cons c cs => simp [csizeL] at hcs
  | succ n ih =>
    constructor
    · intro v hv idx
      cases v with
      | mk t p cs =>
        have hsz : csizeL cs ≤ n := by simp [vsize] at hv; omega
        have hkids : patchKids cs cs 0 = some [] := ih.2 cs hsz 0
        simp [patchOps, hkids, updateProps_self]
    · intro cs hcs i
      cases cs with
      | nil => simp [patchKids]
      | cons c cs =>
        have hsz : csizeL cs ≤ n := by simp [csizeL] at hcs; omega
        have h2 := ih.2 cs hsz (i + 1)
        cases c with
        | text s => simp [patchKids, childStep, childEq, h2]
        | node v =>
          have hv : vsize v ≤ n := by simp [csizeL, csize] at hcs; omega
          have h1 := ih.1 v hv i
          simp [patchKids, childStep, h1, h2]

/-- Patching a virtual node against itself emits no operation. -/
theorem patchOps_self (v : VNode) (idx : Nat) : patchOps (some v) (some v) idx = some [] :=
  (patch_self_aux (vsize v)).1 v (Nat.le_refl _) idx

/-- `flat(Infinity)` followed by the nullish filter and the typing coercion
computes the spec's flatten law, for one argument and for argument lists
(strong induction on the structural size). -/
theorem flatten_aux : ∀ n : Nat,
    (∀ x : HIn, hsize x ≤ n →
      ((flatOne x).filter (fun c => !c.isNullish)).filterMap HIn.leaf = specFlattenOne x) ∧
    (∀ xs : List HIn, hsizeL xs ≤ n →
      ((flatList xs).filter (fun c => !c.isNullish)).filterMap HIn.leaf = specFlattenList xs) := by
  intro n
  induction n with
  | zero =>
    constructor
    · intro x hx; cases x <;> simp [hsize] at hx
    · intro xs hxs
      cases xs with
      | nil => simp [flatList, specFlattenList]
      | cons x xs =>
        have : 1 ≤ hsize x := by cases x <;> simp [hsize]
        simp [hsizeL] at hxs
        omega
  | succ n ih =>
    have hP : ∀ x : HIn, hsize x ≤ n + 1 →
        ((flatOne x).filter (fun c => !c.isNullish)).filterMap HIn.leaf = specFlattenOne x := by
      intro x hx
      cases x with
      | child c => simp [flatOne, specFlattenOne, HIn.isNullish, HIn.leaf]
      | nullv => simp [flatOne, specFlattenOne, HIn.isNullish]
      | undefV => simp [flatOne, specFlattenOne, HIn.isNullish]
      | arr xs =>
        have : hsizeL xs ≤ n := by simp [hsize] at hx; omega
        simpa [flatOne, specFlattenOne] using ih.2 xs this
    refine ⟨hP, ?_⟩
    intro xs hxs
    cases xs with
    | nil => simp [flatList, specFlattenList]
    | cons x xs =>
      have hone : 1 ≤ hsize x := by cases x <;> simp [hsize]
      have hx : hsize x ≤ n + 1 := by simp [hsizeL] at hxs; omega
      have hxs2 : hsizeL xs ≤ n := by simp [hsizeL] at hxs; omega
      rw [flatList, specFlattenList, List.filter_append, List.filterMap_append]
      rw [hP x hx, ih.2 xs hxs2]

/-- `track` preserves the dependency-map invariant: the `Set.add` step inserts
the active effect only when it is not yet in the per-key set. -/
theorem depInv_track (o : Nat) (k : String) (s : RState) (h : depInv s) :
    depInv (trackFn o k s) := by
  unfold trackFn
  cases ha : s.activeEffect with
  | none => exact h
  | some e =>
    intro o1 k1
    unfold depLookup
    simp only [getA_setA]
    by_cases ho : o1 = o
    · subst ho
      simp only [eq_self_iff_true, if_true, Option.getD_some, getA_setA]
      by_cases hk : k1 = k
      · subst hk
        simp only [eq_self_iff_true, if_true, Option.getD_some]
        by_cases hm : e ∈ (getA ((getA s.depMap o1).getD []) k1).getD []
        · simpa [hm] using h o1 k1
        · simp only [hm, if_false, Bool.false_eq_true]
          rw [List.nodup_append]
          refine ⟨h o1 k1, List.nodup_singleton e, ?_⟩
          intro a hma hmb
          rw [List.mem_singleton] at hmb
          subst hmb
          exact hm hma
      · rw [if_neg hk]
        exact h o1 k1
    · rw [if_neg ho]
      exact h o1 k1

/-- Every engine step preserves the dependency-map invariant: `track` is the
only operation that touches the dependency map. -/
theorem depInv_exec : ∀ (fuel : Nat) (t : Task) (s : RState),
    depInv s → depInv (exec fuel t s).2 := by
  intro fuel
  induction fuel with
  | zero => intro t s h; exact h
  | succ n ih =>
    intro t s h
    cases t with
    | eff id =>
      simp only [exec]
      cases hr : getA s.registry id with
      | none => exact h
      | some body =>
        have h2 := ih (.prog body)
          { s with activeEffect := some id, invocations := s.invocations ++ [id] } h
        cases hb : (exec n (.prog body)
            { s with activeEffect := some id, invocations := s.invocations ++ [id] }).1
        · simpa [hb] using h2
        · simpa [hb] using h2
    | prog p =>
      cases p with
      | done => exact h
      | fail => exact h
      | read o k rest =>
        simp only [exec]
        exact ih (.prog rest) _ (depInv_track o k s h)
      | write o k v rest =>
        simp only [exec]
        have h2 := ih (.effList (depLookup o k (storeSet o k v s))) (storeSet o k v s) h
        cases hb : (exec n (.effList (depLookup o k (storeSet o k v s))) (storeSet o k v s)).1
        · simpa [hb] using h2
        · simpa [hb] using ih (.prog rest) _ h2
      | nest body rest =>
        simp only [exec]
        have h2 := ih (.eff s.nextEff)
          { s with registry := s.registry ++ [(s.nextEff, body)], nextEff := s.nextEff + 1 } h
        cases hb : (exec n (.eff s.nextEff)
            { s with registry := s.registry ++ [(s.nextEff, body)], nextEff := s.nextEff + 1 }).1
        · simpa [hb] using h2
        · simpa [hb] using ih (.prog rest) _ h2
    | effList l =>
      cases l with
      | nil => exact h
      | cons e rest =>
        simp only [exec]
        have h2 := ih (.eff e) s h
        cases hb : (exec n (.eff e) s).1
        · simpa [hb] using h2
        · simpa [hb] using ih (.effList rest) _ h2

/-- The initial state satisfies the dependency-map invariant. -/
theorem depInv_init (st : List (Nat × List (String × JSVal))) : depInv (initState st) := by
  intro o k
  simp [depLookup, initState, getA]

/-- A normally completing `effectFn` invocation leaves `activeEffect` cleared
to `null`. -/
theorem exec_eff_true_clears (fuel id : Nat) (s : RState)
    (h : (exec (fuel + 1) (.eff id) s).1 = true) :
    (exec (fuel + 1) (.eff id) s).2.activeEffect = none := by
  simp only [exec] at h ⊢
  cases hr : getA s.registry id with
  | none => simp [hr]
  | some body =>
    simp only [hr] at h ⊢
    by_cases hb : (exec fuel (.prog body)
        { s with activeEffect := some id, invocations := s.invocations ++ [id] }).1 = true
    · simp [hb]
    · simp [hb] at h

/-- Invoking an `effectFn` whose callback throws leaves `activeEffect` pointing
at that closure: the clearing assignment after `fn()` is skipped. -/
theorem exec_eff_fail_stale (fuel id : Nat) (s : RState)
    (h : getA s.registry id = some .fail) :
    (exec (fuel + 2) (.eff id) s).2.activeEffect = some id := by
  simp [exec, h]

/-- C1 (counterexample): the claim "writing a value equal to the currently
stored value invokes no subscriber callback" is false.  Concrete input: the
object `{count: 0}` wrapped reactively, an effect that reads `count` (one
invocation at registration), then the write `count = 0` — value-equal to the
stored value.  The proxy's `set` trap checks only `Reflect.set`'s success
result, which is `true` for any write to a plain object, so `trigger` runs and
the subscriber is invoked a second time: the invocation log is `[0, 0]`, not
the `[0]` the claim requires. -/
theorem reactive_equal_write_cex :
    (exec 10 (.prog (.nest (.read 0 "count" .done) (.write 0 "count" (.num 0) .done)))
      (initState [(0, [("count", .num 0)])])).2.invocations = [0, 0] ∧
    ([0, 0] : List Nat) ≠ [0] :=
  ⟨rfl, by decide⟩

/-- C1 (amended): the reactive wrapper calls `trigger(target, key)` after every
successful underlying write, regardless of whether the value changed; in
particular, writing a reactive property to whatever value `v` it currently
holds still invokes every subscriber of that property (here: the effect that
read `count` is re-invoked, giving invocation log `[0, 0]` for every `v`). -/
theorem reactive_write_always_triggers (v : JSVal) :
    (exec 10 (.prog (.nest (.read 0 "count" .done) (.write 0 "count" v .done)))
      (initState [(0, [("count", v)])])).2.invocations = [0, 0] := rfl

/-- C2 (counterexample): the claim "the active-subscriber pointer is cleared
whether fn returns normally or throws" is false.  Concrete input: `effect(fn)`
where `fn` throws.  `effectFn` is `activeEffect = effectFn; fn(); activeEffect
= null` with no `try`/`finally`, so the exception propagates out (result flag
`false`) and `activeEffect` is left pointing at the registered closure
(`some 0`), a stale pointer, instead of `none`. -/
theorem effect_throw_stale_cex :
    (exec 10 (.prog (.nest .fail .done)) (initState [])).1 = false ∧
    (exec 10 (.prog (.nest .fail .done)) (initState [])).2.activeEffect = some 0 :=
  ⟨rfl, rfl⟩

/-- C2 (amended): the effect runner clears the active-subscriber pointer to
none when the callback finishes normally; a callback that throws skips the
clearing assignment, leaving the pointer set to the throwing effect's closure. -/
theorem effect_pointer_amended :
    (∀ (fuel id : Nat) (s : RState), (exec (fuel + 1) (.eff id) s).1 = true →
      (exec (fuel + 1) (.eff id) s).2.activeEffect = none) ∧
    (∀ (fuel id : Nat) (s : RState), getA s.registry id = some .fail →
      (exec (fuel + 2) (.eff id) s).2.activeEffect = some id) :=
  ⟨exec_eff_true_clears, exec_eff_fail_stale⟩

/-- Witness for the amended C2 theorem, at a state with a completing effect
`0 ↦ done` and at a state with a throwing effect `0 ↦ fail`. -/
theorem effect_pointer_amended_witness :
    (exec 2 (.eff 0) ⟨none, [], [], [(0, .done)], 1, []⟩).2.activeEffect = none ∧
    (exec 3 (.eff 0) ⟨none, [], [], [(0, .fail)], 1, []⟩).2.activeEffect = some 0 :=
  ⟨effect_pointer_amended.1 1 0 _ (by decide), effect_pointer_amended.2 1 0 _ rfl⟩

/-- C3: `h(tag, props, ...children)` returns a virtual node whose `children`
equals the fully flattened argument sequence with all `null` and `undefined`
entries removed, order preserved (`specFlattenList`, written from the spec's
words), for nesting of unbounded depth; the tag and props are passed through
unchanged, and `h` is a pure function of its arguments (it is a plain Lean
function with no effect model). -/
theorem h_flatten_law (t : String) (p : Option Props) (cs : List HIn) :
    (h t p cs).childrenOf = specFlattenList cs ∧
    (h t p cs).typeOf = t ∧ (h t p cs).propsOf = p := by
  refine ⟨?_, rfl, rfl⟩
  show ((flatList cs).filter (fun c => !c.isNullish)).filterMap HIn.leaf = specFlattenList cs
  exact (flatten_aux (hsizeL cs)).2 cs (Nat.le_refl _)

/-- C4: patching any virtual tree against an identical-by-value old tree (same
tag, same attributes, same children, recursively) performs zero host
mutations: no attribute set/remove, no listener add/remove, no child
insert/remove/replace — the emitted operation list is empty, at any child
index. -/
theorem patch_identical_no_ops (v : VNode) (idx : Nat) :
    patchOps (some v) (some v) idx = some [] :=
  (patch_self_aux (vsize v)).1 v (Nat.le_refl _) idx

/-- C5: `updateProps` performs exactly the minimal set of host operations
described by the specification (`specMinimalOps`, written from its words):
each new-mapping key with a differing value is set (event-prefixed keys with a
callable new value remove the existing old listener first, then add the new
one), each old-only key has its listener or attribute removed, and equal-value
keys cause no host call.  The hypothesis is the spec's own data-model
constraint (§3) that event-prefixed keys hold callable values in the old
mapping. -/
theorem updateProps_minimal_diff (n o : Props) (ho : WFProps o) :
    updatePropsOps n o = specMinimalOps n o := by
  unfold updatePropsOps specMinimalOps
  have h1 : ((n.map Prod.fst).flatMap fun k =>
      let nv := getProp n k
      let ov := getProp o k
      if jsEq nv ov then [] else setOpsFor k nv ov)
      = ((n.map Prod.fst).flatMap fun k =>
      let nv := getProp n k
      let ov := getProp o k
      if jsEq nv ov then []
      else if jsStartsWith k "on" && isFn nv then
        (if (getA o k).isSome then [.removeEventListener (eventNameOf k) ov] else [])
          ++ [.addEventListener (eventNameOf k) nv]
      else [.setAttribute k nv]) := by
    apply List.flatMap_congr
    intro k hk
    simp only
    by_cases he : jsEq (getProp n k) (getProp o k)
    · simp [he]
    · simp only [he, if_neg, Bool.not_eq_true]
      unfold setOpsFor
      by_cases hon : (jsStartsWith k "on" && isFn (getProp n k)) = true
      · simp only [hon, if_pos]
        congr 1
        cases hg : getA o k with
        | none => simp [getProp, hg, jsTruthy]
        | some w =>
          have hw : isFn w = true := by
            have hmem := getA_mem o k w hg
            exact ho (k, w) hmem ((Bool.and_eq_true _ _).mp hon).1
          simp [getProp, hg, isFn_truthy hw]
      · simp [hon]
  have h2 : ((o.map Prod.fst).flatMap fun k =>
      if (getA n k).isSome then []
      else
        let ov := getProp o k
        if jsStartsWith k "on" && isFn ov then
          [OpKind.removeEventListener (eventNameOf k) ov]
        else
          [OpKind.removeAttribute k])
      = ((o.map Prod.fst).flatMap fun k =>
      if (getA n k).isSome then []
      else if jsStartsWith k "on" then
        [OpKind.removeEventListener (eventNameOf k) (getProp o k)]
      else [OpKind.removeAttribute k]) := by
    apply List.flatMap_congr
    intro k hk
    by_cases hs : (getA n k).isSome
    · simp [hs]
    · simp only [hs, Bool.false_eq_true, if_neg, if_false]
      by_cases hon : jsStartsWith k "on" = true
      · have hsome : (getA o k).isSome = true := getA_isSome_of_mem_keys o k hk
        cases hg : getA o k with
        | none => rw [hg] at hsome; simp at hsome
        | some w =>
          have hw : isFn w = true := ho (k, w) (getA_mem o k w hg) hon
          simp [hon, getProp, hg, hw]
      · simp [hon]
  rw [h1, h2]

/-- Witness for C5 at the spec's own example: old `{a:1, b:2}`, new
`{b:2, c:3}`; the emitted operations are exactly setting `c` to `3` and
removing `a` (the first loop runs before the second), with `b` untouched. -/
theorem updateProps_minimal_diff_witness :
    updatePropsOps [("b", .num 2), ("c", .num 3)] [("a", .num 1), ("b", .num 2)]
      = specMinimalOps [("b", .num 2), ("c", .num 3)] [("a", .num 1), ("b", .num 2)] ∧
    updatePropsOps [("b", .num 2), ("c", .num 3)] [("a", .num 1), ("b", .num 2)]
      = [.setAttribute "c" (.num 3), .removeAttribute "a"] :=
  ⟨updateProps_minimal_diff _ _ (by unfold WFProps; decide), rfl⟩

/-- C6: an absent old node makes `patch` append a freshly rendered new node
and return; an absent new node makes it remove the live child at `index`;
consequently, patching children `[X, Y]` to `[X, Y, Z]` under the same element
emits exactly one operation — appending the render of `Z` to the patched
element — and patching `[X, Y, Z]` to `[X, Y]` emits exactly the removal of
the child at index 2. -/
theorem patch_growth_shrink :
    (∀ (v : VNode) (idx : Nat),
      patchOps (some v) none idx = some [here (.appendChild (renderNode v))]) ∧
    (∀ (o : VNode) (idx : Nat),
      patchOps none (some o) idx = some [here (.removeChild idx)]) ∧
    (∀ (t : String) (p : Option Props) (X Y Z : VNode),
      patchOps (some (.mk t p [.node X, .node Y, .node Z]))
        (some (.mk t p [.node X, .node Y])) 0
        = some [⟨[0], .appendChild (renderNode Z)⟩]) ∧
    (∀ (t : String) (p : Option Props) (X Y Z : VNode),
      patchOps (some (.mk t p [.node X, .node Y]))
        (some (.mk t p [.node X, .node Y, .node Z])) 0
        = some [⟨[0], .removeChild 2⟩]) := by
  refine ⟨?_, ?_, ?_, ?_⟩
  · intro v idx
    simp [patchOps, here]
  · intro o idx
    cases o with
    | mk t p cs => simp [patchOps, here]
  · intro t p X Y Z
    simp [patchOps, patchKids, childStep, updateProps_self, patchOps_self, atPath, here]
  · intro t p X Y Z
    cases Z with
    | mk zt zp zcs =>
      simp [patchOps, patchKids, childStep, updateProps_self, patchOps_self, atPath, here]

/-- C7: `mount(vnode, containerId)` fails with the error value
`cannot find ID: <containerId>` — carrying the identifier — exactly when the
document has no element with that identifier; otherwise it renders the vnode
and appends the result as the located container's child.  This error value is
the only one `mount` can produce. -/
theorem mount_not_found_iff (doc : Doc) (v : VNode) (c : String) :
    (mount doc v c = .error ("cannot find ID: " ++ c) ↔ getA doc c = none) ∧
    (∀ r, getA doc c = some r → mount doc v c = .ok (r, renderNode v)) := by
  cases hg : getA doc c <;> simp [mount, hg]

/-- Witness for C7 at a one-element document `{root ↦ 5}`: mounting against
the missing identifier `app` produces the not-found error carrying `app`, and
mounting against `root` appends the rendered vnode to element 5. -/
theorem mount_not_found_iff_witness :
    mount [("root", 5)] (.mk "div" none []) "app" = .error ("cannot find ID: " ++ "app") ∧
    mount [("root", 5)] (.mk "div" none []) "root"
      = .ok (5, renderNode (.mk "div" none [])) :=
  ⟨(mount_not_found_iff [("root", 5)] (.mk "div" none []) "app").1.mpr rfl,
   (mount_not_found_iff [("root", 5)] (.mk "div" none []) "root").2 5 rfl⟩

/-- C8: over every sequence of engine operations from the initial state, each
per-(object, key) subscriber set contains at most one entry per callback
identity (`List.Nodup`), so a single `trigger(target, key)` — which iterates
exactly that set — never invokes the same callback twice.  Concretely: an
effect that reads `(0, "x")` twice is recorded once (`[0]`, not `[0, 0]`), and
the subsequent write triggers exactly one re-invocation (log `[0, 0]`:
registration run plus one trigger run). -/
theorem dep_sets_nodup :
    (∀ (fuel : Nat) (p : Prog) (st : List (Nat × List (String × JSVal)))
      (o : Nat) (k : String),
      (depLookup o k (exec fuel (.prog p) (initState st)).2).Nodup) ∧
    depLookup 0 "x" (exec 10 (.prog (.nest (.read 0 "x" (.read 0 "x" .done))
      (.write 0 "x" (.num 1) .done))) (initState [])).2 = [0] ∧
    (exec 10 (.prog (.nest (.read 0 "x" (.read 0 "x" .done))
      (.write 0 "x" (.num 1) .done))) (initState [])).2.invocations = [0, 0] :=
  ⟨fun fuel p st o k => depInv_exec fuel (.prog p) (initState st) (depInv_init st) o k,
   by decide, by decide⟩

/-- C9: when a nested `effect(g)` registration completes during an outer
effect's callback, the active-subscriber pointer is left `null` rather than
restored to the outer closure (`track` is then a no-op on every read), so
reads the outer callback performs after that point are not recorded for the
outer effect.  Concretely: with outer body `effect(done); read (0,"x")` the
set for `(0,"x")` ends empty, whereas the same read without the nested
registration records the outer effect (`[0]`); with outer body
`effect(read (0,"x")); read (0,"y")`, the read inside the nested effect is
attributed to the nested closure (`[1]`) and the outer's later read of
`(0,"y")` is recorded for no one (`[]`). -/
theorem nested_effect_nulls_active :
    (∀ (o : Nat) (k : String) (s : RState),
      trackFn o k { s with activeEffect := none } = { s with activeEffect := none }) ∧
    depLookup 0 "x" (exec 10 (.prog (.nest (.nest .done (.read 0 "x" .done)) .done))
      (initState [])).2 = [] ∧
    depLookup 0 "x" (exec 10 (.prog (.nest (.read 0 "x" .done) .done))
      (initState [])).2 = [0] ∧
    depLookup 0 "x" (exec 10 (.prog (.nest (.nest (.read 0 "x" .done)
      (.read 0 "y" .done)) .done)) (initState [])).2 = [1] ∧
    depLookup 0 "y" (exec 10 (.prog (.nest (.nest (.read 0 "x" .done)
      (.read 0 "y" .done)) .done)) (initState [])).2 = [] :=
  ⟨fun _ _ _ => rfl, by decide, by decide, by decide, by decide⟩

/-- C10: both diff comparisons use loose (coercing) JS equality rather than
identity: for any pair of prop values that are loosely equal (`jsEq`),
`updateProps` performs no host call for that key, and for same-position
children where at least one side is a text value, loose equality of the two
children (`childEq`) suppresses the replacement — no operation is emitted for
that position. -/
theorem loose_equal_no_mutation :
    (∀ (k : String) (v w : JSVal), jsEq v w = true →
      updatePropsOps [(k, v)] [(k, w)] = []) ∧
    (∀ (t : String) (c1 c2 : Child) (i : Nat),
      (isTextO (some c1) || isTextO (some c2)) = true →
      childEq (some c1) (some c2) = true →
      patchOps (some (.mk t none [c1])) (some (.mk t none [c2])) i = some []) := by
  constructor
  · intro k v w hvw
    simp [updatePropsOps, getProp, getA, hvw]
  · intro t c1 c2 i hguard heq
    have hkid : childStep (some c1) (some c2) 0 = some [] := by
      cases c1 <;> cases c2 <;> simp_all [childStep, isTextO]
    simp [patchOps, patchKids, hkid, updatePropsOps]

/-- Witness for C10: the number `1` and the string `"1"` are loosely equal but
not identical, and diffing `{value: 1}` against `{value: "1"}` emits nothing;
the text child `"[object Object]"` is loosely equal to a virtual-node child
(object-to-primitive coercion), and patching one over the other emits
nothing. -/
theorem loose_equal_no_mutation_witness :
    jsEq (.num 1) (.str "1") = true ∧
    updatePropsOps [("value", .num 1)] [("value", .str "1")] = [] ∧
    childEq (some (.text "[object Object]")) (some (.node (.mk "span" none []))) = true ∧
    patchOps (some (.mk "p" none [.text "[object Object]"]))
      (some (.mk "p" none [.node (.mk "span" none [])])) 0 = some [] :=
  ⟨by decide,
   loose_equal_no_mutation.1 "value" (.num 1) (.str "1") (by decide),
   rfl,
   loose_equal_no_mutation.2 "p" (.text "[object Object]") (.node (.mk "span" none [])) 0
     (by decide) (by decide)⟩

end TinyVDom
